import Mathlib

/-!
Verification of the DomoActors-TS actor runtime core against its
specification.  The definitions below are a shallow embedding of the
TypeScript sources: each `def` mirrors one function of the repository
(`ArrayMailbox.send`, `BoundedMailbox.send`/`handleOverflow`,
`LocalMessage.deliver`, `LifeCycle.stop`/`restart`,
`StageSupervisedActor.restartWithin`, `Directory.set`/`remove`/`findByType`,
`createActorProxy`).  Opaque runtime values (results, errors, log text) are
modelled as `String`; actors and addresses are identified by numbers; the
observable side effects of a call (dead letters, promise settlements,
mailbox suspension, supervision routing) are returned as explicit event
lists.
-/

namespace DomoActors

/-- Outcome recorded on a deferred promise: `resolve(v)` or `reject(e)`. -/
inductive Settle where
  | resolved (v : String)
  | rejected (e : String)
deriving DecidableEq, Repr

/-- A queued invocation as the mailbox sees it: the completion handle is
identified by `id`, `tgt` is the target actor, `rep` is the
human-readable representation string built by the proxy. -/
structure Msg where
  id : Nat
  tgt : Nat
  rep : String
deriving DecidableEq, Repr

/-- Observable effect of a mailbox operation. -/
inductive MEvent where
  | deadLetter (tgt : Nat) (rep : String)
  | settle (id : Nat) (s : Settle)
  | dispatchTriggered
deriving DecidableEq, Repr

/-- `'actor stopped'` sentinel resolved on sends to a closed mailbox. -/
def actorStoppedSentinel : String := "actor stopped"

/-- Sentinel resolved by `BoundedMailbox.notifyDropped`. -/
def droppedSentinel : String := "message dropped due to overflow"

/-- Sentinel resolved by the `Reject` overflow policy. -/
def mailboxFullSentinel : String := "mailbox full"

/-- State of `ArrayMailbox` (ArrayMailbox.ts): closed flag, suspended flag,
FIFO queue. -/
structure ArrayMailbox where
  closed : Bool
  suspended : Bool
  queue : List Msg
deriving DecidableEq, Repr

/-- `ArrayMailbox.send`: if not closed, enqueue and dispatch unless
suspended; if closed, emit a dead letter and resolve `'actor stopped'`. -/
def ArrayMailbox.send (m : ArrayMailbox) (msg : Msg) : ArrayMailbox × List MEvent :=
  if m.closed = false then
    ({ m with queue := m.queue ++ [msg] },
      if m.suspended = false then [.dispatchTriggered] else [])
  else
    (m, [.deadLetter msg.tgt msg.rep, .settle msg.id (.resolved actorStoppedSentinel)])

/-- Overflow policies of `BoundedMailbox` (OverflowPolicy.ts). -/
inductive OverflowPolicy where
  | dropOldest
  | dropNewest
  | reject
deriving DecidableEq, Repr

/-- State of `BoundedMailbox` (BoundedMailbox.ts).  The constructor
enforces `capacity > 0`. -/
structure BoundedMailbox where
  closed : Bool
  suspended : Bool
  queue : List Msg
  capacity : Nat
  overflowPolicy : OverflowPolicy
  droppedMessageCount : Nat
deriving DecidableEq, Repr

/-- `BoundedMailbox.handleOverflow`: applies the configured policy to the
incoming message when the queue is at capacity. -/
def BoundedMailbox.handleOverflow (m : BoundedMailbox) (newMsg : Msg) :
    BoundedMailbox × List MEvent :=
  match m.overflowPolicy with
  | .dropOldest =>
    match m.queue with
    | [] => (m, [])    -- unreachable from send: queue length ≥ capacity > 0
    | dropped :: rest =>
      ({ m with queue := rest ++ [newMsg],
                droppedMessageCount := m.droppedMessageCount + 1 },
        [.settle dropped.id (.resolved droppedSentinel)] ++
          (if m.suspended = false then [.dispatchTriggered] else []))
  | .dropNewest =>
      ({ m with droppedMessageCount := m.droppedMessageCount + 1 },
        [.settle newMsg.id (.resolved droppedSentinel)])
  | .reject =>
      ({ m with droppedMessageCount := m.droppedMessageCount + 1 },
        [.deadLetter newMsg.tgt newMsg.rep,
         .settle newMsg.id (.resolved mailboxFullSentinel)])

/-- `BoundedMailbox.send`: closed mailboxes dead-letter and resolve
`'actor stopped'`; at capacity the overflow policy runs; otherwise the
message is enqueued and dispatch is triggered unless suspended. -/
def BoundedMailbox.send (m : BoundedMailbox) (msg : Msg) :
    BoundedMailbox × List MEvent :=
  if m.closed = true then
    (m, [.deadLetter msg.tgt msg.rep, .settle msg.id (.resolved actorStoppedSentinel)])
  else if m.capacity ≤ m.queue.length then
    m.handleOverflow msg
  else
    ({ m with queue := m.queue ++ [msg] },
      if m.suspended = false then [.dispatchTriggered] else [])

/-- C4: a send to a Closed mailbox (unbounded or bounded) leaves the state
unchanged (so the invocation is neither enqueued nor delivered), emits a
dead letter carrying exactly the invocation's representation, and resolves
(not rejects) the completion with the `'actor stopped'` sentinel. -/
theorem closed_send_dead_letters_and_resolves_stopped
    (am : ArrayMailbox) (bm : BoundedMailbox) (msg : Msg)
    (ha : am.closed = true) (hb : bm.closed = true) :
    am.send msg =
      (am, [.deadLetter msg.tgt msg.rep,
            .settle msg.id (.resolved actorStoppedSentinel)]) ∧
    bm.send msg =
      (bm, [.deadLetter msg.tgt msg.rep,
            .settle msg.id (.resolved actorStoppedSentinel)]) := by
  constructor
  · simp [ArrayMailbox.send, ha]
  · simp [BoundedMailbox.send, hb]

/-- Witness for `closed_send_dead_letters_and_resolves_stopped` at a
concrete closed mailbox and message. -/
theorem closed_send_dead_letters_witness :
    (ArrayMailbox.mk true false []).send (Msg.mk 0 7 "someOp()") =
      (ArrayMailbox.mk true false [],
       [.deadLetter 7 "someOp()",
        .settle 0 (.resolved actorStoppedSentinel)]) ∧
    (BoundedMailbox.mk true false [] 2 .reject 0).send (Msg.mk 0 7 "someOp()") =
      (BoundedMailbox.mk true false [] 2 .reject 0,
       [.deadLetter 7 "someOp()",
        .settle 0 (.resolved actorStoppedSentinel)]) :=
  closed_send_dead_letters_and_resolves_stopped
    (ArrayMailbox.mk true false []) (BoundedMailbox.mk true false [] 2 .reject 0)
    (Msg.mk 0 7 "someOp()") rfl rfl

/-- C7: a send to an open bounded mailbox at capacity applies exactly the
configured overflow policy, increments the dropped counter by exactly one,
and per policy: DropOldest settles the popped head with the overflow
sentinel and enqueues the new invocation at the tail; DropNewest settles
the new invocation with the overflow sentinel without enqueueing it;
Reject dead-letters the new invocation and settles it with the
`'mailbox full'` sentinel. -/
theorem bounded_overflow_policies (m : BoundedMailbox) (msg : Msg)
    (hopen : m.closed = false) (hcap : 0 < m.capacity)
    (hfull : m.capacity ≤ m.queue.length) :
    (m.send msg).1.droppedMessageCount = m.droppedMessageCount + 1 ∧
    (m.overflowPolicy = .dropOldest →
      ∃ dropped rest, m.queue = dropped :: rest ∧
        (m.send msg).1.queue = rest ++ [msg] ∧
        (m.send msg).2 =
          [.settle dropped.id (.resolved droppedSentinel)] ++
            (if m.suspended = false then [.dispatchTriggered] else [])) ∧
    (m.overflowPolicy = .dropNewest →
      (m.send msg).1.queue = m.queue ∧
      (m.send msg).2 = [.settle msg.id (.resolved droppedSentinel)]) ∧
    (m.overflowPolicy = .reject →
      (m.send msg).1.queue = m.queue ∧
      (m.send msg).2 = [.deadLetter msg.tgt msg.rep,
                        .settle msg.id (.resolved mailboxFullSentinel)]) := by
  have hq : m.queue ≠ [] := by
    intro h
    rw [h] at hfull
    simp at hfull
    omega
  have hsend : m.send msg = m.handleOverflow msg := by
    simp [BoundedMailbox.send, hopen, hfull]
  rw [hsend]
  cases hpol : m.overflowPolicy with
  | dropOldest =>
    cases hqq : m.queue with
    | nil => exact absurd hqq hq
    | cons dropped rest =>
      refine ⟨?_, ?_, ?_, ?_⟩
      · simp [BoundedMailbox.handleOverflow, hpol, hqq]
      · intro _
        refine ⟨dropped, rest, rfl, ?_, ?_⟩
        · simp [BoundedMailbox.handleOverflow, hpol, hqq]
        · simp [BoundedMailbox.handleOverflow, hpol, hqq]
      · intro hc; exact absurd hc (by decide)
      · intro hc; exact absurd hc (by decide)
  | dropNewest =>
    refine ⟨?_, ?_, ?_, ?_⟩
    · simp [BoundedMailbox.handleOverflow, hpol]
    · intro hc; exact absurd hc (by decide)
    · intro _
      constructor <;> simp [BoundedMailbox.handleOverflow, hpol]
    · intro hc; exact absurd hc (by decide)
  | reject =>
    refine ⟨?_, ?_, ?_, ?_⟩
    · simp [BoundedMailbox.handleOverflow, hpol]
    · intro hc; exact absurd hc (by decide)
    · intro hc; exact absurd hc (by decide)
    · intro _
      constructor <;> simp [BoundedMailbox.handleOverflow, hpol]

/-- A concrete bounded mailbox at capacity with the DropOldest policy. -/
def c7Mailbox : BoundedMailbox :=
  BoundedMailbox.mk false false [Msg.mk 0 7 "a()"] 1 .dropOldest 0

/-- Witness for `bounded_overflow_policies`: a capacity-1 DropOldest
mailbox holding one message receives a second one. -/
theorem bounded_overflow_policies_witness :
    (c7Mailbox.send (Msg.mk 1 7 "b()")).1.droppedMessageCount =
        c7Mailbox.droppedMessageCount + 1 ∧
    (c7Mailbox.overflowPolicy = .dropOldest →
      ∃ dropped rest, c7Mailbox.queue = dropped :: rest ∧
        (c7Mailbox.send (Msg.mk 1 7 "b()")).1.queue = rest ++ [Msg.mk 1 7 "b()"] ∧
        (c7Mailbox.send (Msg.mk 1 7 "b()")).2 =
          [.settle dropped.id (.resolved droppedSentinel)] ++
            (if c7Mailbox.suspended = false then [.dispatchTriggered] else [])) ∧
    (c7Mailbox.overflowPolicy = .dropNewest →
      (c7Mailbox.send (Msg.mk 1 7 "b()")).1.queue = c7Mailbox.queue ∧
      (c7Mailbox.send (Msg.mk 1 7 "b()")).2 =
        [.settle 1 (.resolved droppedSentinel)]) ∧
    (c7Mailbox.overflowPolicy = .reject →
      (c7Mailbox.send (Msg.mk 1 7 "b()")).1.queue = c7Mailbox.queue ∧
      (c7Mailbox.send (Msg.mk 1 7 "b()")).2 =
        [.deadLetter 7 "b()", .settle 1 (.resolved mailboxFullSentinel)]) :=
  bounded_overflow_policies c7Mailbox (Msg.mk 1 7 "b()") rfl (by decide) (by decide)

/-! ## Execution contexts and message delivery (ExecutionContext.ts,
LocalMessage.ts, LocalStage.handleFailureOf) -/

/-- Execution context: either the distinguished `EmptyExecutionContext`
(the `NoPairsExecutionContext` singleton, which silently drops
mutations) or an ordinary context with its key/value map. -/
inductive EC where
  | emptyCtx
  | ctx (pairs : List (String × String))
deriving DecidableEq, Repr

/-- The key/value pairs held by a context (`EmptyExecutionContext` never
owns keys). -/
def EC.pairs : EC → List (String × String)
  | .emptyCtx => []
  | .ctx ps => ps

/-- `ExecutionContext.hasContext`: `count() > 0`. -/
def EC.hasContext (e : EC) : Bool :=
  decide (0 < e.pairs.length)

/-- `ExecutionContext.copy`: a fresh ordinary context holding a copy of
the map. -/
def EC.copy (e : EC) : EC :=
  .ctx e.pairs

/-- Observable effect during delivery and failure routing. -/
inductive DEvent where
  | deadLetter (tgt : Nat) (rep : String)
  | propagated
  | logError (e : String)
  | settle (id : Nat) (s : Settle)
  | suspendMailbox
  | reportFailure (actorId : Nat) (e : String)
  | inform (supervisorId : Nat) (actorId : Nat) (e : String)
deriving DecidableEq, Repr

/-- Result of `LocalMessage.deliver`: the environment's
`currentMessageExecutionContext` slot, the mailbox's suspended flag, and
the emitted events. -/
structure DeliverResult where
  published : EC
  slot : EC
  suspended : Bool
  events : List DEvent
deriving DecidableEq, Repr

/-- `LocalMessage.deliver` (LocalMessage.ts lines 90-129).  Inputs: the
message, its execution-context snapshot, whether the target actor is
stopped, the outcome of running the closure on the actor, and the
environment slot / mailbox suspended flag before delivery.  The stopped
branch dead-letters and returns; otherwise the snapshot is published and
propagated, the closure runs, success resolves the deferred, failure
logs, rejects, suspends the mailbox and reports to the stage; the
`finally` clause resets the slot to the empty context on both `try`
paths. -/
def LocalMessage.deliver (msg : Msg) (snapshot : EC) (actorStopped : Bool)
    (run : Except String String) (slot : EC) (suspended : Bool) :
    DeliverResult :=
  if actorStopped = true then
    { published := slot, slot := slot, suspended := suspended,
      events := [.deadLetter msg.tgt msg.rep] }
  else
    match run with
    | .ok v =>
      { published := snapshot, slot := .emptyCtx, suspended := suspended,
        events := [.propagated, .settle msg.id (.resolved v)] }
    | .error e =>
      { published := snapshot, slot := .emptyCtx, suspended := true,
        events := [.propagated, .logError e, .settle msg.id (.rejected e),
                   .suspendMailbox, .reportFailure msg.tgt e] }

/-- The supervised-actor record handed to the stage on a failure
(`new StageSupervisedActor(protocol, actor, error)`). -/
structure SupervisedRecord where
  protocolId : Nat
  actorId : Nat
  error : String
deriving DecidableEq, Repr

/-- `LocalStage.handleFailureOf` (LocalStage lines 262-275): look up the
failed actor's supervisor (`supervised.supervisor()`, resolved through
the actor's environment, abstracted here as `supervisorOf`) and deliver
`inform(error, supervised)` to it. -/
def LocalStage.handleFailureOf (supervisorOf : Nat → Nat)
    (s : SupervisedRecord) : List DEvent :=
  [.inform (supervisorOf s.protocolId) s.actorId s.error]

/-- C5: when a delivered closure raises `e`, delivery logs the error,
rejects the invocation's completion with `e`, suspends the mailbox, and
reports the failure to the stage, which informs the actor's supervisor;
and on both the success and the failure exit paths the
`currentMessageExecutionContext` slot is reset to the empty context. -/
theorem delivery_failure_logs_rejects_suspends_reports
    (msg : Msg) (snapshot slot : EC) (suspended : Bool)
    (e v : String) (supervisorOf : Nat → Nat) (protoId : Nat) :
    (LocalMessage.deliver msg snapshot false (.error e) slot suspended =
      { published := snapshot, slot := .emptyCtx, suspended := true,
        events := [.propagated, .logError e, .settle msg.id (.rejected e),
                   .suspendMailbox, .reportFailure msg.tgt e] }) ∧
    (LocalMessage.deliver msg snapshot false (.ok v) slot suspended).slot =
      .emptyCtx ∧
    LocalStage.handleFailureOf supervisorOf ⟨protoId, msg.tgt, e⟩ =
      [.inform (supervisorOf protoId) msg.tgt e] := by
  refine ⟨rfl, rfl, rfl⟩

/-! ## Lifecycle: restart and stop (LifeCycle.ts) -/

/-- The runtime aggregate visible to `LifeCycle.restart`: the identity
and private state of the current actor instance together with the
environment fields the spec says a restart preserves.  `instanceGen`
counts instance constructions (`0` = the instance built at
`actorFor` time); the base `restart` in LifeCycle.ts never constructs
another. -/
structure ActorRuntime where
  instanceGen : Nat
  instanceState : List (String × String)
  address : Nat
  mailboxQueue : List Msg
  children : List Nat
  parent : Option Nat
  supervisorName : String
deriving DecidableEq, Repr

/-- Lifecycle-hook events emitted by `restart`. -/
inductive LifeEvent where
  | beforeRestartCalled (reason : String)
  | afterRestartCalled (reason : String)
  | restartLogged
  | hookFailureLogged (hook : String) (e : String)
deriving DecidableEq, Repr

/-- `LifeCycle.restart` (LifeCycle.ts lines 391-422): call
`beforeRestart(reason)` catching and logging a hook failure, log the
restart, call `afterRestart(reason)` catching and logging a hook
failure.  Nothing else happens: the runtime aggregate is returned
untouched. -/
def LifeCycle.restart (reason : String)
    (beforeRestartResult afterRestartResult : Except String Unit)
    (a : ActorRuntime) : ActorRuntime × List LifeEvent :=
  (a,
    (match beforeRestartResult with
     | .ok _ => [.beforeRestartCalled reason]
     | .error e => [.beforeRestartCalled reason,
                    .hookFailureLogged "beforeRestart" e]) ++
    [.restartLogged] ++
    (match afterRestartResult with
     | .ok _ => [.afterRestartCalled reason]
     | .error e => [.afterRestartCalled reason,
                    .hookFailureLogged "afterRestart" e]))

/-- A failed actor whose instance state has drifted from a fresh
instance and whose mailbox still holds a pending invocation. -/
def corruptedRuntime : ActorRuntime :=
  ActorRuntime.mk 0 [("count", "5")] 3 [Msg.mk 9 3 "pending()"] [] (some 1) "default"

/-- C1: evaluating `LifeCycle.restart` at a failed actor shows that the
hooks are called (log-and-continue) but no new instance is constructed
and nothing is swapped: the instance generation stays `0`, the drifted
instance state survives, and the mailbox is not cleared — contradicting
the specified construct-and-swap (and the code's own
"Restart the failed actor with a new instance" documentation). -/
theorem restart_constructs_no_new_instance :
    LifeCycle.restart "bad" (.ok ()) (.ok ()) corruptedRuntime =
      (corruptedRuntime,
       [.beforeRestartCalled "bad", .restartLogged, .afterRestartCalled "bad"]) ∧
    corruptedRuntime.instanceGen = 0 ∧
    corruptedRuntime.instanceState = [("count", "5")] ∧
    corruptedRuntime.mailboxQueue ≠ [] := by
  refine ⟨rfl, rfl, rfl, by decide⟩

/-! ## Supervision: restartWithin (Supervisor.ts) -/

/-- `SupervisionScope` (Supervisor.ts). -/
inductive SupervisionScope where
  | all
  | one
deriving DecidableEq, Repr

/-- Action taken by `StageSupervisedActor.restartWithin`. -/
inductive SupAction where
  | restartAttempted (actorId : Nat)
  | mailboxResumed (actorId : Nat)
  | escalated
deriving DecidableEq, Repr

/-- `StageSupervisedActor.restartWithin` (Supervisor.ts lines 302-339).
The `_period` and `_intensity` parameters are accepted and ignored
("TODO: Track restart intensity/period for throttling"); scope `One`
restarts this actor and resumes its mailbox, scope `All` does so for the
actor and all its siblings. -/
def StageSupervisedActor.restartWithin (_periodMs _intensity : Int)
    (scope : SupervisionScope) (selfId : Nat)
    (selfWithSiblings : List Nat) : List SupAction :=
  match scope with
  | .one => [.restartAttempted selfId, .mailboxResumed selfId]
  | .all => selfWithSiblings.flatMap
      (fun c => [.restartAttempted c, .mailboxResumed c])

/-- C2: restart intensity is not enforced.  `restartWithin` returns the
same actions whatever period and intensity it is given, and with
intensity `0` (zero restarts allowed in the window) the very first
failure is still restarted, never escalated — the throttling the spec
requires is absent (the code marks it TODO). -/
theorem restartWithin_ignores_intensity_and_period :
    (∀ (p i p2 i2 : Int) (scope : SupervisionScope) (selfId : Nat)
       (sibs : List Nat),
       StageSupervisedActor.restartWithin p i scope selfId sibs =
         StageSupervisedActor.restartWithin p2 i2 scope selfId sibs) ∧
    StageSupervisedActor.restartWithin 5000 0 .one 1 [1] =
      [.restartAttempted 1, .mailboxResumed 1] ∧
    SupAction.escalated ∉ StageSupervisedActor.restartWithin 5000 0 .one 1 [1] := by
  refine ⟨fun _ _ _ _ _ _ _ => rfl, rfl, by decide⟩

/-! ## Lifecycle: stop (LifeCycle.ts lines 441-515) -/

/-- Steps of the stop sequence, in emission order. -/
inductive StopEvent where
  | beforeStopCalled
  | childStopAttempted (childId : Nat)
  | removedFromParent
  | mailboxClosed
  | removedFromDirectory
  | afterStopCalled
  | failureLogged (what : String) (e : String)
deriving DecidableEq, Repr

/-- `LifeCycle.stop` without a timeout: return immediately when already
stopped; otherwise call `beforeStop` (logging a hook failure and
continuing), stop each entry of `environment().children()` in the order
of that array (creation order; failures logged, iteration continues),
remove self from the parent's children when a parent exists, close the
mailbox, remove self from the stage directory, and call `afterStop`
(logging a hook failure).  `children` pairs each child with the outcome
of its recursive `stop()`. -/
def LifeCycle.stop (alreadyStopped : Bool)
    (beforeStopResult : Except String Unit)
    (children : List (Nat × Except String Unit))
    (hasParent : Bool)
    (afterStopResult : Except String Unit) : List StopEvent :=
  if alreadyStopped = true then []
  else
    (match beforeStopResult with
     | .ok _ => [.beforeStopCalled]
     | .error e => [.beforeStopCalled, .failureLogged "beforeStop" e]) ++
    (children.flatMap fun c =>
      match c.2 with
      | .ok _ => [.childStopAttempted c.1]
      | .error e => [.childStopAttempted c.1, .failureLogged "childStop" e]) ++
    (if hasParent = true then [.removedFromParent] else []) ++
    [.mailboxClosed, .removedFromDirectory] ++
    (match afterStopResult with
     | .ok _ => [.afterStopCalled]
     | .error e => [.afterStopCalled, .failureLogged "afterStop" e])

/-- The child-stop attempts of a stop run, in order. -/
def childAttempts (evts : List StopEvent) : List Nat :=
  evts.filterMap fun e =>
    match e with
    | .childStopAttempted c => some c
    | _ => none

/-- C6 counterexample: an actor with two children created in the order
`1, 2` stops them as `[1, 2]` — creation order, not the reverse
creation order `[2, 1]` the claim states. -/
theorem stop_children_order_not_reversed :
    childAttempts
        (LifeCycle.stop false (.ok ()) [(1, .ok ()), (2, .ok ())] true (.ok ())) =
      [1, 2] ∧
    childAttempts
        (LifeCycle.stop false (.ok ()) [(1, .ok ()), (2, .ok ())] true (.ok ())) ≠
      List.reverse [1, 2] := by
  refine ⟨rfl, by decide⟩

/-- Events that are not failure logs. -/
def keyEvents (evts : List StopEvent) : List StopEvent :=
  evts.filter fun e =>
    match e with
    | .failureLogged _ _ => false
    | _ => true

/-- C6 (amended to creation order): on an already-stopped actor `stop`
performs no step at all; otherwise, whatever the hook and child-stop
outcomes, the non-logging steps are exactly: `beforeStop`, then each
child stop attempt in creation order, then removal from the parent (when
one exists), then closing the mailbox, then removal from the directory,
then `afterStop` — hook and child failures are only logged and never
abort the sequence. -/
theorem stop_sequence_in_order (b a : Except String Unit)
    (children : List (Nat × Except String Unit)) (hasParent : Bool) :
    LifeCycle.stop true b children hasParent a = [] ∧
    keyEvents (LifeCycle.stop false b children hasParent a) =
      [.beforeStopCalled] ++
      (children.map fun c => .childStopAttempted c.1) ++
      (if hasParent = true then [.removedFromParent] else []) ++
      [.mailboxClosed, .removedFromDirectory, .afterStopCalled] := by
  constructor
  · rfl
  · have hkids : keyEvents (children.flatMap fun c =>
        match c.2 with
        | .ok _ => [StopEvent.childStopAttempted c.1]
        | .error e => [StopEvent.childStopAttempted c.1,
                       .failureLogged "childStop" e]) =
        children.map fun c => StopEvent.childStopAttempted c.1 := by
      induction children with
      | nil => rfl
      | cons c cs ih =>
        cases hc : c.2 <;>
          simp only [List.flatMap_cons, keyEvents, List.filter_append, hc,
            List.map_cons] <;>
          simp only [keyEvents] at ih <;>
          rw [ih] <;> rfl
    simp only [LifeCycle.stop, if_neg (by decide : ¬(false = true)), keyEvents,
      List.filter_append] at hkids ⊢
    rw [hkids]
    cases b <;> cases a <;> cases hasParent <;>
      simp [List.append_assoc, List.filter]

/-! ## Dynamic proxy (ActorProxy.ts) -/

/-- A property key as the proxy's get trap sees it: the library-internal
`INTERNAL_ENVIRONMENT_ACCESS` symbol, any other symbol, or a string. -/
inductive PropKey where
  | internalAccess
  | symbol (description : String)
  | str (s : String)
deriving DecidableEq, Repr

/-- What the get trap yields for a property. -/
inductive ProxyMember where
  | environmentAccessor
  | undefinedValue
  | syncDelegate (method : String)
  | asyncSender (method : String)
deriving DecidableEq, Repr

/-- The `SYNCHRONOUS_ACTOR_METHODS` set (ActorProxy.ts lines 31-43). -/
def SYNCHRONOUS_ACTOR_METHODS : List String :=
  ["address", "definition", "executionContext", "logger", "lifeCycle",
   "isStopped", "stage", "type", "equals", "hashCode", "toString"]

/-- `prop.startsWith('_')` — a JS string starts with `'_'` exactly when
its first character is `'_'`. -/
def startsWithUnderscore (s : String) : Bool :=
  decide (s.data.head? = some '_')

/-- The get trap of `createActorProxy` (ActorProxy.ts lines 80-134), in
the code's guard order: the internal environment-access symbol returns
an accessor; other symbols and underscore-prefixed strings return
undefined; `then`/`catch`/`finally` return undefined; members of
`SYNCHRONOUS_ACTOR_METHODS` delegate synchronously to the actor; every
other string yields the asynchronous sender function. -/
def proxyGet (prop : PropKey) : ProxyMember :=
  match prop with
  | .internalAccess => .environmentAccessor
  | .symbol _ => .undefinedValue
  | .str s =>
    if startsWithUnderscore s = true then .undefinedValue
    else if s = "then" ∨ s = "catch" ∨ s = "finally" then .undefinedValue
    else if s ∈ SYNCHRONOUS_ACTOR_METHODS then .syncDelegate s
    else .asyncSender s

/-- Invocation assembled by the asynchronous sender (ActorProxy.ts lines
108-133): a fresh deferred, the representation string
`prop + "(" + args.toString() + ")"`, the execution-context snapshot,
the send to the mailbox, and the deferred's promise returned to the
caller. -/
structure BuiltInvocation where
  freshDeferred : Nat
  rep : String
  snapshot : EC
  sentToMailbox : Bool
  returnedPromise : Nat
deriving DecidableEq, Repr

/-- The asynchronous sender: snapshot the actor's current execution
context (`copy()` when it has context, else the `EmptyExecutionContext`
singleton), build the invocation with representation
`method ++ "(" ++ args joined by "," ++ ")"` (JS `Array.toString`), send
it, and hand the new deferred's promise back. -/
def proxyAsyncCall (freshId : Nat) (actorCtx : EC) (method : String)
    (args : List String) : BuiltInvocation :=
  { freshDeferred := freshId
    rep := method ++ "(" ++ String.intercalate "," args ++ ")"
    snapshot := if actorCtx.hasContext = true then actorCtx.copy else .emptyCtx
    sentToMailbox := true
    returnedPromise := freshId }

/-- C8: for method names reachable as protocol calls (not symbol-keyed,
not underscore-prefixed, not `then`/`catch`/`finally`), exactly the
eleven metadata operations are handled synchronously and every other
name yields the asynchronous sender; an asynchronous call builds its
representation as `"method(arg1,arg2,…)"`, snapshots a copy of the
actor's context exactly when it holds keys (the empty context
otherwise), sends the invocation, and returns the very deferred it
created. -/
theorem proxy_sync_set_exact_and_async_shape (s : String)
    (hu : startsWithUnderscore s = false)
    (hp : ¬(s = "then" ∨ s = "catch" ∨ s = "finally")) :
    (proxyGet (.str s) = .syncDelegate s ↔ s ∈ SYNCHRONOUS_ACTOR_METHODS) ∧
    (s ∉ SYNCHRONOUS_ACTOR_METHODS → proxyGet (.str s) = .asyncSender s) ∧
    (∀ freshId actorCtx method (a1 a2 : String),
      (proxyAsyncCall freshId actorCtx method [a1, a2]).rep =
          method ++ "(" ++ a1 ++ "," ++ a2 ++ ")" ∧
      (proxyAsyncCall freshId actorCtx method []).rep = method ++ "()" ∧
      (proxyAsyncCall freshId actorCtx method [a1, a2]).snapshot =
          (if actorCtx.pairs = [] then .emptyCtx else .ctx actorCtx.pairs) ∧
      (proxyAsyncCall freshId actorCtx method [a1, a2]).sentToMailbox = true ∧
      (proxyAsyncCall freshId actorCtx method [a1, a2]).returnedPromise =
          (proxyAsyncCall freshId actorCtx method [a1, a2]).freshDeferred) := by
    refine ⟨?_, ?_, ?_⟩
    · constructor
      · intro h
        by_contra hmem
        simp [proxyGet, hu, hp, hmem] at h
      · intro hmem
        simp [proxyGet, hu, hp, hmem]
    · intro hmem
      simp [proxyGet, hu, hp, hmem]
    · intro freshId actorCtx method a1 a2
      refine ⟨?_, ?_, ?_, rfl, rfl⟩
      · show method ++ "(" ++ String.intercalate "," [a1, a2] ++ ")" = _
        rw [show String.intercalate "," [a1, a2] = a1 ++ "," ++ a2 from rfl]
        simp [String.append_assoc]
      · show method ++ "(" ++ String.intercalate "," [] ++ ")" = _
        rw [String.append_assoc, String.append_assoc]
        rfl
      · cases actorCtx with
        | emptyCtx => rfl
        | ctx ps =>
          cases ps with
          | nil => rfl
          | cons p pr =>
            simp [proxyAsyncCall, EC.hasContext, EC.pairs, EC.copy]

/-- Witness for `proxy_sync_set_exact_and_async_shape` at the ordinary
protocol method name `increment`. -/
theorem proxy_sync_set_witness :
    (proxyGet (.str "increment") = .syncDelegate "increment" ↔
        "increment" ∈ SYNCHRONOUS_ACTOR_METHODS) ∧
    ("increment" ∉ SYNCHRONOUS_ACTOR_METHODS →
        proxyGet (.str "increment") = .asyncSender "increment") ∧
    (∀ freshId actorCtx method (a1 a2 : String),
      (proxyAsyncCall freshId actorCtx method [a1, a2]).rep =
          method ++ "(" ++ a1 ++ "," ++ a2 ++ ")" ∧
      (proxyAsyncCall freshId actorCtx method []).rep = method ++ "()" ∧
      (proxyAsyncCall freshId actorCtx method [a1, a2]).snapshot =
          (if actorCtx.pairs = [] then .emptyCtx else .ctx actorCtx.pairs) ∧
      (proxyAsyncCall freshId actorCtx method [a1, a2]).sentToMailbox = true ∧
      (proxyAsyncCall freshId actorCtx method [a1, a2]).returnedPromise =
          (proxyAsyncCall freshId actorCtx method [a1, a2]).freshDeferred) :=
  proxy_sync_set_exact_and_async_shape "increment" (by decide) (by decide)

/-- C10 counterexample: the library-internal environment-access symbol
is a symbol-keyed property on which the proxy yields an accessor
function, not undefined. -/
theorem internal_symbol_not_undefined :
    proxyGet .internalAccess = .environmentAccessor ∧
    ProxyMember.environmentAccessor ≠ ProxyMember.undefinedValue := by
  exact ⟨rfl, by decide⟩

/-- C10 (amended to exclude the internal access symbol): `then`,
`catch`, `finally`, every symbol-keyed property other than the internal
environment-access symbol, and every underscore-prefixed string property
yield undefined from the proxy, so none of them can enqueue an
invocation and awaiting the proxy never sends a message. -/
theorem special_props_yield_undefined (desc s : String)
    (hu : startsWithUnderscore s = true) :
    proxyGet (.str "then") = .undefinedValue ∧
    proxyGet (.str "catch") = .undefinedValue ∧
    proxyGet (.str "finally") = .undefinedValue ∧
    proxyGet (.symbol desc) = .undefinedValue ∧
    proxyGet (.str s) = .undefinedValue := by
  refine ⟨by decide, by decide, by decide, rfl, ?_⟩
  simp [proxyGet, hu]

/-- Witness for `special_props_yield_undefined` at the property name
`_internal`. -/
theorem special_props_yield_undefined_witness :
    proxyGet (.str "then") = .undefinedValue ∧
    proxyGet (.str "catch") = .undefinedValue ∧
    proxyGet (.str "finally") = .undefinedValue ∧
    proxyGet (.symbol "sym") = .undefinedValue ∧
    proxyGet (.str "_internal") = .undefinedValue :=
  special_props_yield_undefined "sym" "_internal" (by decide)

/-! ## Whole-trace mailbox semantics (ArrayMailbox.ts, BoundedMailbox.ts,
LocalMessage.ts)

A small-step system for one actor and its mailbox — the unbounded
`ArrayMailbox` when `capacity` is `none`, the `BoundedMailbox` with the
given overflow policy when `capacity = some cap`.  Sends assign each
invocation a fresh completion handle (`nextId`); a send at capacity runs
the overflow policy exactly as `BoundedMailbox.handleOverflow` does,
settling the dropped or rejected handle with the overflow sentinel;
delivery steps mirror the cooperative `dispatch`/`deliver` loop: a
delivery can occur exactly when `isReceivable()` holds, pops the head,
and settles its handle with the closure's result or error (suspending
the mailbox on error, as `LocalMessage.deliver` does).
`suspend`/`resume`/`close` mirror the mailbox controls; the actor's
`isStopped()` is its mailbox's `isClosed()` (LifeCycle.ts line 555), and
nothing ever reopens a closed mailbox. -/

deriving instance DecidableEq for Except

/-- A queued invocation together with the outcome its closure will
produce if it is ever delivered. -/
structure TMsg where
  id : Nat
  tgt : Nat
  rep : String
  outcome : Except String String
deriving DecidableEq, Repr

/-- State of the single-actor mailbox system: the mailbox fields shared
by both implementations, the bounded configuration (`capacity = none`
for `ArrayMailbox`), the counter handing out distinct completion-handle
identities, and the append-only settlement and dead-letter logs. -/
structure SysState where
  closed : Bool
  suspended : Bool
  queue : List TMsg
  nextId : Nat
  settled : List (Nat × Settle)
  deadLetters : List (Nat × String)
  capacity : Option Nat
  policy : OverflowPolicy
  dropCount : Nat
deriving DecidableEq, Repr

/-- External commands and scheduler steps. -/
inductive Cmd where
  | send (tgt : Nat) (rep : String) (outcome : Except String String)
  | suspend
  | resume
  | close
  | deliverNext
deriving DecidableEq, Repr

/-- One step of the system.  The send case mirrors `ArrayMailbox.send`
and `BoundedMailbox.send`: closed mailboxes dead-letter and resolve
`'actor stopped'`; a bounded mailbox at capacity runs `handleOverflow`
(DropOldest settles the popped head with the overflow sentinel and
enqueues the new invocation, DropNewest settles the new invocation with
the overflow sentinel, Reject dead-letters it and settles
`'mailbox full'`, each bumping the drop counter); otherwise the message
is enqueued. -/
def step (s : SysState) (c : Cmd) : SysState :=
  match c with
  | .send tgt rep outcome =>
    if s.closed = true then
      { s with settled := s.settled ++ [(s.nextId, .resolved actorStoppedSentinel)],
               deadLetters := s.deadLetters ++ [(s.nextId, rep)],
               nextId := s.nextId + 1 }
    else
      match s.capacity with
      | none =>
        { s with queue := s.queue ++ [TMsg.mk s.nextId tgt rep outcome],
                 nextId := s.nextId + 1 }
      | some cap =>
        if cap ≤ s.queue.length then
          match s.policy with
          | .dropOldest =>
            match s.queue with
            | [] => s    -- unreachable: the constructor enforces capacity > 0
            | oldest :: rest =>
              { s with queue := rest ++ [TMsg.mk s.nextId tgt rep outcome],
                       settled := s.settled ++
                         [(oldest.id, .resolved droppedSentinel)],
                       nextId := s.nextId + 1,
                       dropCount := s.dropCount + 1 }
          | .dropNewest =>
            { s with settled := s.settled ++
                       [(s.nextId, .resolved droppedSentinel)],
                     nextId := s.nextId + 1,
                     dropCount := s.dropCount + 1 }
          | .reject =>
            { s with settled := s.settled ++
                       [(s.nextId, .resolved mailboxFullSentinel)],
                     deadLetters := s.deadLetters ++ [(s.nextId, rep)],
                     nextId := s.nextId + 1,
                     dropCount := s.dropCount + 1 }
        else
          { s with queue := s.queue ++ [TMsg.mk s.nextId tgt rep outcome],
                   nextId := s.nextId + 1 }
  | .suspend => { s with suspended := true }
  | .resume => { s with suspended := false }
  | .close => { s with closed := true }
  | .deliverNext =>
    if s.closed = true ∨ s.suspended = true then s
    else
      match s.queue with
      | [] => s
      | msg :: rest =>
        match msg.outcome with
        | .ok v =>
          { s with queue := rest,
                   settled := s.settled ++ [(msg.id, .resolved v)] }
        | .error e =>
          { s with queue := rest, suspended := true,
                   settled := s.settled ++ [(msg.id, .rejected e)] }

/-- Run a command list. -/
def runCmds (s : SysState) : List Cmd → SysState
  | [] => s
  | c :: cs => runCmds (step s c) cs

/-- The initial state: an open, empty mailbox of the given kind. -/
def initState (capacity : Option Nat) (policy : OverflowPolicy) : SysState :=
  SysState.mk false false [] 0 [] [] capacity policy 0

/-- The handles settled so far, in settlement order. -/
def settledIds (s : SysState) : List Nat := s.settled.map Prod.fst

/-- At-most-once invariant on the (queue, id counter, settlement log)
triple: every settled handle is settled once, queued invocations are
unsettled, and all issued handles are below the counter. -/
def SettleTriple (queue : List TMsg) (nextId : Nat)
    (settled : List (Nat × Settle)) : Prop :=
  (settled.map Prod.fst).Nodup ∧
  (queue.map TMsg.id).Nodup ∧
  (∀ m ∈ queue, m.id ∉ settled.map Prod.fst) ∧
  (∀ m ∈ queue, m.id < nextId) ∧
  (∀ i ∈ settled.map Prod.fst, i < nextId)

/-- The at-most-once invariant of a system state. -/
def SettleInv (s : SysState) : Prop :=
  SettleTriple s.queue s.nextId s.settled

theorem settleTriple_enq (q : List TMsg) (n : Nat)
    (st : List (Nat × Settle)) (tgt : Nat) (rep : String)
    (outcome : Except String String) (h : SettleTriple q n st) :
    SettleTriple (q ++ [TMsg.mk n tgt rep outcome]) (n + 1) st := by
  obtain ⟨h1, h2, h3, h4, h5⟩ := h
  refine ⟨h1, ?_, ?_, ?_, fun i hi => Nat.lt_succ_of_lt (h5 i hi)⟩
  · rw [List.map_append, List.nodup_append]
    refine ⟨h2, by simp, ?_⟩
    intro a ha hb
    simp only [List.map_cons, List.map_nil, List.mem_singleton] at hb
    subst hb
    rcases List.mem_map.mp ha with ⟨m, hm, hid⟩
    exact absurd (hid ▸ h4 m hm) (lt_irrefl _)
  · intro m hm
    rcases List.mem_append.mp hm with hm | hm
    · exact h3 m hm
    · simp only [List.mem_singleton] at hm
      subst hm
      intro hmem
      exact absurd (h5 _ hmem) (by simp)
  · intro m hm
    rcases List.mem_append.mp hm with hm | hm
    · exact Nat.lt_succ_of_lt (h4 m hm)
    · simp only [List.mem_singleton] at hm
      subst hm
      exact Nat.lt_succ_self _

theorem settleTriple_settleNew (q : List TMsg) (n : Nat)
    (st : List (Nat × Settle)) (res : Settle) (h : SettleTriple q n st) :
    SettleTriple q (n + 1) (st ++ [(n, res)]) := by
  obtain ⟨h1, h2, h3, h4, h5⟩ := h
  refine ⟨?_, h2, ?_, fun m hm => Nat.lt_succ_of_lt (h4 m hm), ?_⟩
  · rw [List.map_append, List.nodup_append]
    refine ⟨h1, by simp, ?_⟩
    intro a ha hb
    simp only [List.map_cons, List.map_nil, List.mem_singleton] at hb
    subst hb
    exact absurd (h5 _ ha) (lt_irrefl _)
  · intro m hm hmem
    rw [List.map_append] at hmem
    rcases List.mem_append.mp hmem with hh | hh
    · exact h3 m hm hh
    · simp only [List.map_cons, List.map_nil, List.mem_singleton] at hh
      exact absurd (hh ▸ h4 m hm) (lt_irrefl _)
  · intro i hi
    rw [List.map_append] at hi
    rcases List.mem_append.mp hi with hh | hh
    · exact Nat.lt_succ_of_lt (h5 i hh)
    · simp only [List.map_cons, List.map_nil, List.mem_singleton] at hh
      subst hh
      exact Nat.lt_succ_self _

theorem settleTriple_headSettle (m : TMsg) (rest : List TMsg) (n : Nat)
    (st : List (Nat × Settle)) (res : Settle)
    (h : SettleTriple (m :: rest) n st) :
    SettleTriple rest n (st ++ [(m.id, res)]) := by
  obtain ⟨h1, h2, h3, h4, h5⟩ := h
  have hmm : m ∈ m :: rest := List.mem_cons_self _ _
  rw [List.map_cons, List.nodup_cons] at h2
  refine ⟨?_, h2.2, ?_, ?_, ?_⟩
  · rw [List.map_append, List.nodup_append]
    refine ⟨h1, by simp, ?_⟩
    intro a ha hb
    simp only [List.map_cons, List.map_nil, List.mem_singleton] at hb
    subst hb
    exact h3 m hmm ha
  · intro m2 hm2 hmem
    rw [List.map_append] at hmem
    rcases List.mem_append.mp hmem with hh | hh
    · exact h3 m2 (List.mem_cons_of_mem _ hm2) hh
    · simp only [List.map_cons, List.map_nil, List.mem_singleton] at hh
      exact h2.1 (hh ▸ List.mem_map.mpr ⟨m2, hm2, rfl⟩)
  · intro m2 hm2
    exact h4 m2 (List.mem_cons_of_mem _ hm2)
  · intro i hi
    rw [List.map_append] at hi
    rcases List.mem_append.mp hi with hh | hh
    · exact h5 i hh
    · simp only [List.map_cons, List.map_nil, List.mem_singleton] at hh
      exact hh ▸ h4 m hmm

theorem settleTriple_dropOldest (m : TMsg) (rest : List TMsg) (n : Nat)
    (st : List (Nat × Settle)) (tgt : Nat) (rep : String)
    (outcome : Except String String) (h : SettleTriple (m :: rest) n st) :
    SettleTriple (rest ++ [TMsg.mk n tgt rep outcome]) (n + 1)
      (st ++ [(m.id, .resolved droppedSentinel)]) :=
  settleTriple_enq rest n _ tgt rep outcome
    (settleTriple_headSettle m rest n st _ h)

theorem settleInv_step (s : SysState) (c : Cmd) (h : SettleInv s) :
    SettleInv (step s c) := by
  cases c with
  | send tgt rep outcome =>
    by_cases hc : s.closed = true
    · have hs : step s (.send tgt rep outcome) =
          { s with settled := s.settled ++
                     [(s.nextId, .resolved actorStoppedSentinel)],
                   deadLetters := s.deadLetters ++ [(s.nextId, rep)],
                   nextId := s.nextId + 1 } := by
        simp [step, hc]
      rw [hs]
      exact settleTriple_settleNew _ _ _ _ h
    · cases hcap : s.capacity with
      | none =>
        have hs : step s (.send tgt rep outcome) =
            { s with queue := s.queue ++ [TMsg.mk s.nextId tgt rep outcome],
                     nextId := s.nextId + 1 } := by
          simp [step, hc, hcap]
        rw [hs]
        exact settleTriple_enq _ _ _ _ _ _ h
      | some cap =>
        by_cases hfull : cap ≤ s.queue.length
        · cases hpol : s.policy with
          | dropOldest =>
            cases hq : s.queue with
            | nil =>
              have hcap0 : cap = 0 := by
                rw [hq] at hfull
                simpa using hfull
              have hs : step s (.send tgt rep outcome) = s := by
                simp [step, hc, hcap, hpol, hq, hcap0]
              rw [hs]
              exact h
            | cons m rest =>
              have hfull2 : cap ≤ rest.length + 1 := by
                rw [hq] at hfull
                simpa using hfull
              have hs : step s (.send tgt rep outcome) =
                  { s with queue := rest ++ [TMsg.mk s.nextId tgt rep outcome],
                           settled := s.settled ++
                             [(m.id, .resolved droppedSentinel)],
                           nextId := s.nextId + 1,
                           dropCount := s.dropCount + 1 } := by
                simp [step, hc, hcap, hfull2, hpol, hq]
              rw [hs]
              have hx : SettleTriple s.queue s.nextId s.settled := h
              rw [hq] at hx
              exact settleTriple_dropOldest m rest s.nextId s.settled
                tgt rep outcome hx
          | dropNewest =>
            have hs : step s (.send tgt rep outcome) =
                { s with settled := s.settled ++
                           [(s.nextId, .resolved droppedSentinel)],
                         nextId := s.nextId + 1,
                         dropCount := s.dropCount + 1 } := by
              simp [step, hc, hcap, hfull, hpol]
            rw [hs]
            exact settleTriple_settleNew _ _ _ _ h
          | reject =>
            have hs : step s (.send tgt rep outcome) =
                { s with settled := s.settled ++
                           [(s.nextId, .resolved mailboxFullSentinel)],
                         deadLetters := s.deadLetters ++ [(s.nextId, rep)],
                         nextId := s.nextId + 1,
                         dropCount := s.dropCount + 1 } := by
              simp [step, hc, hcap, hfull, hpol]
            rw [hs]
            exact settleTriple_settleNew _ _ _ _ h
        · have hs : step s (.send tgt rep outcome) =
              { s with queue := s.queue ++ [TMsg.mk s.nextId tgt rep outcome],
                       nextId := s.nextId + 1 } := by
            simp [step, hc, hcap, hfull]
          rw [hs]
          exact settleTriple_enq _ _ _ _ _ _ h
  | suspend => exact h
  | resume => exact h
  | close => exact h
  | deliverNext =>
    by_cases hr : s.closed = true ∨ s.suspended = true
    · have hs : step s .deliverNext = s := by
        simp only [step, if_pos hr]
      rw [hs]
      exact h
    · cases hq : s.queue with
      | nil =>
        have hs : step s .deliverNext = s := by
          simp only [step, if_neg hr, hq]
        rw [hs]
        exact h
      | cons msg rest =>
        have hx : SettleTriple s.queue s.nextId s.settled := h
        rw [hq] at hx
        cases ho : msg.outcome with
        | ok v =>
          have hs : step s .deliverNext =
              { s with queue := rest,
                       settled := s.settled ++ [(msg.id, .resolved v)] } := by
            simp only [step, if_neg hr, hq, ho]
          rw [hs]
          exact settleTriple_headSettle msg rest s.nextId s.settled _ hx
        | error e =>
          have hs : step s .deliverNext =
              { s with queue := rest, suspended := true,
                       settled := s.settled ++ [(msg.id, .rejected e)] } := by
            simp only [step, if_neg hr, hq, ho]
          rw [hs]
          exact settleTriple_headSettle msg rest s.nextId s.settled _ hx

theorem settleInv_runCmds (s : SysState) (cmds : List Cmd) (h : SettleInv s) :
    SettleInv (runCmds s cmds) := by
  induction cmds generalizing s with
  | nil => exact h
  | cons c cs ih => exact ih (step s c) (settleInv_step s c h)

/-- C3 (amended to at-most-once): across every finite execution of the
mailbox system from an initial state of either kind — the unbounded
`ArrayMailbox` or a `BoundedMailbox` of any capacity and overflow
policy, whose at-capacity sends settle the dropped or rejected handle
with the overflow sentinels — each completion handle is settled at most
once, and an invocation still sitting in the queue has not been settled:
no handle is ever settled twice. -/
theorem completion_settled_at_most_once (capacity : Option Nat)
    (policy : OverflowPolicy) (cmds : List Cmd) :
    (settledIds (runCmds (initState capacity policy) cmds)).Nodup ∧
    ∀ m ∈ (runCmds (initState capacity policy) cmds).queue,
      m.id ∉ settledIds (runCmds (initState capacity policy) cmds) := by
  have h0 : SettleInv (initState capacity policy) := by
    unfold SettleInv SettleTriple initState
    simp
  have h := settleInv_runCmds (initState capacity policy) cmds h0
  exact ⟨h.1, h.2.2.1⟩

/-- Handle `i` is unsettled now and stays unsettled under every
continuation of the run. -/
def foreverUnsettled (s : SysState) (i : Nat) : Prop :=
  i ∉ settledIds s ∧ ∀ cmds, i ∉ settledIds (runCmds s cmds)

theorem step_preserves_closed (s : SysState) (c : Cmd)
    (h : s.closed = true) : (step s c).closed = true := by
  cases c with
  | send tgt rep outcome => simp [step, h]
  | suspend => exact h
  | resume => exact h
  | close => rfl
  | deliverNext => simp [step, h]

theorem step_closed_keeps_unsettled (s : SysState) (c : Cmd) (i : Nat)
    (h : s.closed = true) (hlt : i < s.nextId) (hns : i ∉ settledIds s) :
    i < (step s c).nextId ∧ i ∉ settledIds (step s c) := by
  cases c with
  | send tgt rep outcome =>
    have hs : step s (.send tgt rep outcome) =
        { s with settled := s.settled ++
                   [(s.nextId, .resolved actorStoppedSentinel)],
                 deadLetters := s.deadLetters ++ [(s.nextId, rep)],
                 nextId := s.nextId + 1 } := by
      simp [step, h]
    rw [hs]
    refine ⟨Nat.lt_succ_of_lt hlt, ?_⟩
    intro hmem
    have hmem2 : i ∈ (s.settled ++
        [(s.nextId, Settle.resolved actorStoppedSentinel)]).map Prod.fst := hmem
    rw [List.map_append] at hmem2
    rcases List.mem_append.mp hmem2 with hh | hh
    · exact hns hh
    · simp only [List.map_cons, List.map_nil, List.mem_singleton] at hh
      exact absurd (hh ▸ hlt) (lt_irrefl _)
  | suspend => exact ⟨hlt, hns⟩
  | resume => exact ⟨hlt, hns⟩
  | close => exact ⟨hlt, hns⟩
  | deliverNext =>
    have hs : step s .deliverNext = s := by
      simp [step, h]
    rw [hs]
    exact ⟨hlt, hns⟩

theorem closed_unsettled_stays (s : SysState) (i : Nat)
    (hcl : s.closed = true) (hlt : i < s.nextId) (hns : i ∉ settledIds s) :
    foreverUnsettled s i := by
  refine ⟨hns, ?_⟩
  intro cmds
  induction cmds generalizing s with
  | nil => exact hns
  | cons c cs ih =>
    exact ih (step s c) (step_preserves_closed s c hcl)
      (step_closed_keeps_unsettled s c i hcl hlt hns).1
      (step_closed_keeps_unsettled s c i hcl hlt hns).2

/-- Suspend, then send one invocation (it is queued without dispatch),
then close the mailbox — on the unbounded mailbox. -/
def c3Trace : List Cmd := [.suspend, .send 7 "op()" (.ok "v"), .close]

/-- The unbounded-mailbox start state for the C3 counterexample. -/
def c3Start : SysState := initState none OverflowPolicy.dropOldest

/-- C3 counterexample: the invocation queued when the mailbox was closed
keeps its completion handle unsettled forever — `close()` neither drains
nor dead-letters the queue, and a closed mailbox never delivers, so the
handle can never be settled by any continuation of the run. -/
theorem queued_at_close_forever_unsettled :
    (runCmds c3Start c3Trace).queue = [TMsg.mk 0 7 "op()" (.ok "v")] ∧
    foreverUnsettled (runCmds c3Start c3Trace) 0 := by
  have hstate : runCmds c3Start c3Trace =
      SysState.mk true true [TMsg.mk 0 7 "op()" (.ok "v")] 1 [] []
        none OverflowPolicy.dropOldest 0 := by
    decide
  constructor
  · rw [hstate]
  · rw [hstate]
    exact closed_unsettled_stays _ 0 rfl (by decide) (by simp [settledIds])


/-! ## Directory (Directory.ts) -/

/-- An actor registration: the integer standing for its address (both
the `valueAsString` map key and `hashCode` are injective images of the
address value) and the `type()` name from its definition. -/
structure ActorRef where
  addr : Int
  typeName : String
deriving DecidableEq, Repr

/-- JS `Map.set`: replace in place when the key exists, append
otherwise. -/
def assocSet {α β : Type} [DecidableEq α] : List (α × β) → α → β → List (α × β)
  | [], k, v => [(k, v)]
  | p :: ps, k, v => if p.1 = k then (k, v) :: ps else p :: assocSet ps k v

/-- JS `Map.get`. -/
def assocGet {α β : Type} [DecidableEq α] : List (α × β) → α → Option β
  | [], _ => none
  | p :: ps, k => if p.1 = k then some p.2 else assocGet ps k

/-- JS `Map.delete`. -/
def assocDelete {α β : Type} [DecidableEq α] : List (α × β) → α → List (α × β)
  | [], _ => []
  | p :: ps, k => if p.1 = k then assocDelete ps k else p :: assocDelete ps k

/-- The sharded directory: `buckets` (an array of maps keyed by address)
and the secondary `typeIndex` map. -/
structure Directory where
  buckets : List (List (Int × ActorRef))
  typeIndex : List (String × ActorRef)
deriving DecidableEq, Repr

/-- `Math.abs(address.hashCode()) % this.buckets.length`
(`Directory.bucketFor`). -/
def bucketIdx (bucketCount : Nat) (addr : Int) : Nat :=
  addr.natAbs % bucketCount

/-- A fresh directory with `bucketCount` empty buckets. -/
def Directory.empty (bucketCount : Nat) : Directory :=
  Directory.mk (List.replicate bucketCount []) []

/-- The entries of bucket `i` (an index beyond the array reads empty). -/
def Directory.entriesAt (d : Directory) (i : Nat) : List (Int × ActorRef) :=
  d.buckets.getD i []

/-- `Directory.set`: put the actor in the bucket selected by its
address, keyed by the address value, and set the type-index entry for
its type name (last-writer-wins). -/
def Directory.set (d : Directory) (address : Int) (actor : ActorRef) :
    Directory :=
  let i := bucketIdx d.buckets.length address
  { buckets := d.buckets.set i (assocSet (d.entriesAt i) address actor),
    typeIndex := assocSet d.typeIndex actor.typeName actor }

/-- `Directory.remove`: look the address up in its bucket; when an actor
is found, delete the type-index entry for that actor's type name
(unconditionally); then delete the bucket entry. -/
def Directory.remove (d : Directory) (address : Int) : Directory :=
  let i := bucketIdx d.buckets.length address
  let bucket := d.entriesAt i
  let ti := match assocGet bucket address with
    | some actor => assocDelete d.typeIndex actor.typeName
    | none => d.typeIndex
  { buckets := d.buckets.set i (assocDelete bucket address),
    typeIndex := ti }

/-- `Directory.findByType`: the secondary-index lookup. -/
def Directory.findByType (d : Directory) (t : String) : Option ActorRef :=
  assocGet d.typeIndex t

/-- All bucket entries (`Directory.all` flattens the buckets the same
way). -/
def Directory.liveEntries (d : Directory) : List (Int × ActorRef) :=
  d.buckets.flatten

/-- Some bucket holds an entry with this address. -/
def Directory.hasAddr (d : Directory) (address : Int) : Bool :=
  d.liveEntries.any (fun p => decide (p.1 = address))

/-- Some bucket holds an actor with this type name. -/
def Directory.hasType (d : Directory) (t : String) : Bool :=
  d.liveEntries.any (fun p => decide (p.2.typeName = t))

/-- A `set` or `remove` call on the directory. -/
inductive DirOp where
  | set (actor : ActorRef)
  | remove (address : Int)
deriving DecidableEq, Repr

/-- Run a call sequence (each `set` registers the actor under its own
address, as `LocalStage.actorFor` does). -/
def runDirOps (d : Directory) : List DirOp → Directory
  | [] => d
  | .set a :: ops => runDirOps (d.set a.addr a) ops
  | .remove addr :: ops => runDirOps (d.remove addr) ops

/-- Registration discipline: every `set` uses an address not currently
registered and a type name no live actor carries (live type names stay
pairwise distinct, as the spec assumes by convention). -/
def wfOps (d : Directory) : List DirOp → Bool
  | [] => true
  | .set a :: ops =>
      !d.hasAddr a.addr && !d.hasType a.typeName && wfOps (d.set a.addr a) ops
  | .remove addr :: ops => wfOps (d.remove addr) ops

theorem getD_set_self {α : Type} (l : List α) (i : Nat) (b dflt : α)
    (h : i < l.length) : (l.set i b).getD i dflt = b := by
  induction l generalizing i with
  | nil => simp at h
  | cons x xs ih =>
    cases i with
    | zero => rfl
    | succ j => exact ih j (Nat.lt_of_succ_lt_succ h)

theorem getD_set_ne {α : Type} (l : List α) (i j : Nat) (b dflt : α)
    (h : j ≠ i) : (l.set i b).getD j dflt = l.getD j dflt := by
  induction l generalizing i j with
  | nil => simp [List.set]
  | cons x xs ih =>
    cases i with
    | zero =>
      cases j with
      | zero => exact absurd rfl h
      | succ j2 => rfl
    | succ i2 =>
      cases j with
      | zero => rfl
      | succ j2 => exact ih i2 j2 (fun he => h (by rw [he]))

theorem mem_join_iff_getD {α : Type} (l : List (List α)) (x : α) :
    x ∈ l.flatten ↔ ∃ i, x ∈ l.getD i [] := by
  induction l with
  | nil =>
    simp only [List.flatten_nil, List.not_mem_nil, false_iff, not_exists]
    intro i
    cases i <;> simp [List.getD]
  | cons b bs ih =>
    simp only [List.flatten_cons, List.mem_append, ih]
    constructor
    · rintro (hb | ⟨i, hi⟩)
      · exact ⟨0, hb⟩
      · exact ⟨i + 1, hi⟩
    · rintro ⟨i, hi⟩
      cases i with
      | zero => exact Or.inl hi
      | succ i2 => exact Or.inr ⟨i2, hi⟩

theorem assocSet_append_of_no_key {α β : Type} [DecidableEq α]
    (l : List (α × β)) (k : α) (v : β) (h : ∀ p ∈ l, p.1 ≠ k) :
    assocSet l k v = l ++ [(k, v)] := by
  induction l with
  | nil => rfl
  | cons p ps ih =>
    rw [assocSet, if_neg (h p (List.mem_cons_self _ _)), List.cons_append,
      ih (fun q hq => h q (List.mem_cons_of_mem _ hq))]

theorem assocGet_mem {α β : Type} [DecidableEq α] (l : List (α × β))
    (k : α) (v : β) (h : assocGet l k = some v) : (k, v) ∈ l := by
  induction l with
  | nil => cases h
  | cons p ps ih =>
    rw [assocGet] at h
    by_cases hp : p.1 = k
    · rw [if_pos hp] at h
      cases h
      cases p with
      | mk p1 p2 =>
        simp only at hp
        subst hp
        exact List.mem_cons_self _ _
    · rw [if_neg hp] at h
      exact List.mem_cons_of_mem _ (ih h)

theorem assocGet_of_no_key {α β : Type} [DecidableEq α] (l : List (α × β))
    (k : α) (h : ∀ p ∈ l, p.1 ≠ k) : assocGet l k = none := by
  induction l with
  | nil => rfl
  | cons p ps ih =>
    rw [assocGet, if_neg (h p (List.mem_cons_self _ _))]
    exact ih (fun q hq => h q (List.mem_cons_of_mem _ hq))

theorem assocGet_append_self {α β : Type} [DecidableEq α]
    (l : List (α × β)) (k : α) (v : β) (h : ∀ p ∈ l, p.1 ≠ k) :
    assocGet (l ++ [(k, v)]) k = some v := by
  induction l with
  | nil => simp [assocGet]
  | cons p ps ih =>
    rw [List.cons_append, assocGet, if_neg (h p (List.mem_cons_self _ _))]
    exact ih (fun q hq => h q (List.mem_cons_of_mem _ hq))

theorem assocGet_append_ne {α β : Type} [DecidableEq α]
    (l : List (α × β)) (k k2 : α) (v : β) (h : k2 ≠ k) :
    assocGet (l ++ [(k, v)]) k2 = assocGet l k2 := by
  induction l with
  | nil =>
    rw [List.nil_append, assocGet, assocGet,
      if_neg (fun he : k = k2 => h he.symm)]
    rfl
  | cons p ps ih =>
    by_cases hp : p.1 = k2
    · rw [List.cons_append, assocGet, if_pos hp, assocGet, if_pos hp]
    · rw [List.cons_append, assocGet, if_neg hp, assocGet, if_neg hp, ih]

theorem mem_assocDelete {α β : Type} [DecidableEq α] (l : List (α × β))
    (k : α) (p : α × β) :
    p ∈ assocDelete l k ↔ p ∈ l ∧ p.1 ≠ k := by
  induction l with
  | nil => simp [assocDelete]
  | cons q qs ih =>
    by_cases hq : q.1 = k
    · rw [assocDelete, if_pos hq, ih]
      constructor
      · rintro ⟨h1, h2⟩
        exact ⟨List.mem_cons_of_mem _ h1, h2⟩
      · rintro ⟨h1, h2⟩
        rcases List.mem_cons.mp h1 with h1 | h1
        · exact absurd (h1 ▸ hq) h2
        · exact ⟨h1, h2⟩
    · rw [assocDelete, if_neg hq]
      constructor
      · intro hmem
        rcases List.mem_cons.mp hmem with h1 | h1
        · exact ⟨List.mem_cons.mpr (Or.inl h1), h1 ▸ hq⟩
        · rcases ih.mp h1 with ⟨h2, h3⟩
          exact ⟨List.mem_cons_of_mem _ h2, h3⟩
      · rintro ⟨h1, h2⟩
        rcases List.mem_cons.mp h1 with h1 | h1
        · exact h1 ▸ List.mem_cons_self _ _
        · exact List.mem_cons_of_mem _ (ih.mpr ⟨h1, h2⟩)

theorem assocGet_assocDelete_ne {α β : Type} [DecidableEq α]
    (l : List (α × β)) (k k2 : α) (h : k2 ≠ k) :
    assocGet (assocDelete l k) k2 = assocGet l k2 := by
  induction l with
  | nil => rfl
  | cons p ps ih =>
    by_cases hpk : p.1 = k
    · have hp2 : ¬ p.1 = k2 := fun he => h (he ▸ hpk : k2 = k)
      rw [assocDelete, if_pos hpk, ih, assocGet, if_neg hp2]
    · by_cases hp2 : p.1 = k2
      · rw [assocDelete, if_neg hpk, assocGet, if_pos hp2, assocGet, if_pos hp2]
      · rw [assocDelete, if_neg hpk, assocGet, if_neg hp2, assocGet,
          if_neg hp2, ih]

theorem assocDelete_of_no_key {α β : Type} [DecidableEq α]
    (l : List (α × β)) (k : α) (h : ∀ p ∈ l, p.1 ≠ k) :
    assocDelete l k = l := by
  induction l with
  | nil => rfl
  | cons p ps ih =>
    rw [assocDelete, if_neg (h p (List.mem_cons_self _ _)),
      ih (fun q hq => h q (List.mem_cons_of_mem _ hq))]

theorem assoc_nodup_key_eq {α β : Type} [DecidableEq α]
    (l : List (α × β)) (hnd : (l.map Prod.fst).Nodup)
    (p q : α × β) (hp : p ∈ l) (hq : q ∈ l) (hk : p.1 = q.1) : p = q := by
  induction l with
  | nil => cases hp
  | cons x xs ih =>
    rw [List.map_cons, List.nodup_cons] at hnd
    rcases List.mem_cons.mp hp with hp1 | hp1 <;>
      rcases List.mem_cons.mp hq with hq1 | hq1
    · rw [hp1, hq1]
    · subst hp1
      exact absurd (hk ▸ List.mem_map.mpr ⟨q, hq1, rfl⟩) hnd.1
    · subst hq1
      exact absurd (hk ▸ List.mem_map.mpr ⟨p, hp1, rfl⟩ : q.1 ∈ _) hnd.1
    · exact ih hnd.2 hp1 hq1

theorem assocGet_none_no_key {α β : Type} [DecidableEq α]
    (l : List (α × β)) (k : α) (h : assocGet l k = none) :
    ∀ p ∈ l, p.1 ≠ k := by
  induction l with
  | nil => intro p hp; cases hp
  | cons p ps ih =>
    rw [assocGet] at h
    by_cases hp : p.1 = k
    · rw [if_pos hp] at h; cases h
    · rw [if_neg hp] at h
      intro q hq
      rcases List.mem_cons.mp hq with hq | hq
      · exact hq ▸ hp
      · exact ih h q hq

theorem assocDelete_sublist {α β : Type} [DecidableEq α]
    (l : List (α × β)) (k : α) : (assocDelete l k).Sublist l := by
  induction l with
  | nil => exact List.Sublist.refl _
  | cons p ps ih =>
    by_cases hp : p.1 = k
    · rw [assocDelete, if_pos hp]
      exact ih.cons _
    · rw [assocDelete, if_neg hp]
      exact ih.cons₂ _

theorem getD_replicate_nil {α : Type} (n i : Nat) :
    (List.replicate n ([] : List α)).getD i [] = [] := by
  induction n generalizing i with
  | zero => cases i <;> rfl
  | succ m ih =>
    cases i with
    | zero => rfl
    | succ j => exact ih j

/-- Well-formedness of a directory with `n` buckets: every entry is
keyed by its actor's address and sits in the bucket its hash selects,
bucket keys are duplicate-free, live type names are pairwise distinct,
and the type index holds exactly the live actors under their type
names. -/
structure DirWf (n : Nat) (d : Directory) : Prop where
  npos : 0 < n
  blen : d.buckets.length = n
  keyed : ∀ i p, p ∈ d.entriesAt i → p.1 = p.2.addr
  placed : ∀ i p, p ∈ d.entriesAt i → bucketIdx n p.1 = i
  ndkeys : ∀ i, ((d.entriesAt i).map Prod.fst).Nodup
  typesInj : ∀ i j p q, p ∈ d.entriesAt i → q ∈ d.entriesAt j →
    p.2.typeName = q.2.typeName → p.2 = q.2
  typeComplete : ∀ i p, p ∈ d.entriesAt i →
    assocGet d.typeIndex p.2.typeName = some p.2
  typeSound : ∀ q ∈ d.typeIndex,
    (∃ i p, p ∈ d.entriesAt i ∧ p.2 = q.2) ∧ q.2.typeName = q.1
  tiKeysNd : (d.typeIndex.map Prod.fst).Nodup

theorem hasAddr_false_no_key (d : Directory) (address : Int)
    (h : d.hasAddr address = false) :
    ∀ i p, p ∈ d.entriesAt i → p.1 ≠ address := by
  intro i p hp
  have hmem : p ∈ d.liveEntries :=
    (mem_join_iff_getD d.buckets p).mpr ⟨i, hp⟩
  rw [Directory.hasAddr, List.any_eq_false] at h
  simpa using h p hmem

theorem hasType_false_no_type (d : Directory) (t : String)
    (h : d.hasType t = false) :
    ∀ i p, p ∈ d.entriesAt i → p.2.typeName ≠ t := by
  intro i p hp
  have hmem : p ∈ d.liveEntries :=
    (mem_join_iff_getD d.buckets p).mpr ⟨i, hp⟩
  rw [Directory.hasType, List.any_eq_false] at h
  simpa using h p hmem

theorem dirWf_set (n : Nat) (d : Directory) (a : ActorRef)
    (hwf : DirWf n d) (haddr : d.hasAddr a.addr = false)
    (htype : d.hasType a.typeName = false) : DirWf n (d.set a.addr a) := by
  have hi : bucketIdx n a.addr < n := Nat.mod_lt _ hwf.npos
  have hfreshAddr := hasAddr_false_no_key d a.addr haddr
  have hfreshType := hasType_false_no_type d a.typeName htype
  have hfreshTi : ∀ q ∈ d.typeIndex, q.1 ≠ a.typeName := by
    intro q hq he
    rcases hwf.typeSound q hq with ⟨⟨i0, p0, hp0, hpq⟩, hname⟩
    exact hfreshType i0 p0 hp0 (by rw [hpq, hname, he])
  have hset : d.set a.addr a =
      Directory.mk
        (d.buckets.set (bucketIdx n a.addr)
          (d.entriesAt (bucketIdx n a.addr) ++ [(a.addr, a)]))
        (d.typeIndex ++ [(a.typeName, a)]) := by
    rw [Directory.set]
    rw [hwf.blen,
      assocSet_append_of_no_key _ _ _ (hfreshAddr (bucketIdx n a.addr)),
      assocSet_append_of_no_key _ _ _ hfreshTi]
  have hent : ∀ j, (d.set a.addr a).entriesAt j =
      if j = bucketIdx n a.addr then
        d.entriesAt (bucketIdx n a.addr) ++ [(a.addr, a)]
      else d.entriesAt j := by
    intro j
    rw [hset]
    show (d.buckets.set _ _).getD j [] = _
    by_cases hj : j = bucketIdx n a.addr
    · rw [if_pos hj, hj, getD_set_self _ _ _ _ (hwf.blen ▸ hi)]
    · rw [if_neg hj, getD_set_ne _ _ _ _ _ hj]
      rfl
  have hti : (d.set a.addr a).typeIndex = d.typeIndex ++ [(a.typeName, a)] := by
    rw [hset]
  -- membership characterization
  have hmemChar : ∀ j p, p ∈ (d.set a.addr a).entriesAt j →
      p ∈ d.entriesAt j ∨ (p = (a.addr, a) ∧ j = bucketIdx n a.addr) := by
    intro j p hp
    rw [hent] at hp
    by_cases hj : j = bucketIdx n a.addr
    · rw [if_pos hj] at hp
      rcases List.mem_append.mp hp with hp | hp
      · exact Or.inl (hj ▸ hp)
      · simp only [List.mem_singleton] at hp
        exact Or.inr ⟨hp, hj⟩
    · rw [if_neg hj] at hp
      exact Or.inl hp
  have hmemBack : ∀ j p, p ∈ d.entriesAt j → p ∈ (d.set a.addr a).entriesAt j := by
    intro j p hp
    rw [hent]
    by_cases hj : j = bucketIdx n a.addr
    · rw [if_pos hj]
      rw [hj] at hp
      exact List.mem_append.mpr (Or.inl hp)
    · rw [if_neg hj]
      exact hp
  refine ⟨hwf.npos, ?_, ?_, ?_, ?_, ?_, ?_, ?_, ?_⟩
  · rw [hset]
    show (d.buckets.set _ _).length = n
    rw [List.length_set, hwf.blen]
  · intro j p hp
    rcases hmemChar j p hp with hp | ⟨hp, _⟩
    · exact hwf.keyed j p hp
    · rw [hp]
  · intro j p hp
    rcases hmemChar j p hp with hp | ⟨hp, hj⟩
    · exact hwf.placed j p hp
    · rw [hp, hj]
  · intro j
    rw [hent]
    by_cases hj : j = bucketIdx n a.addr
    · rw [if_pos hj, List.map_append, List.nodup_append]
      refine ⟨hwf.ndkeys _, by simp, ?_⟩
      intro x hx hy
      simp only [List.map_cons, List.map_nil, List.mem_singleton] at hy
      subst hy
      rcases List.mem_map.mp hx with ⟨p, hp, hkey⟩
      exact hfreshAddr _ p (hj ▸ hp) hkey
    · rw [if_neg hj]
      exact hwf.ndkeys j
  · intro i j p q hp hq hname
    rcases hmemChar i p hp with hp | ⟨hp, _⟩ <;>
      rcases hmemChar j q hq with hq | ⟨hq, _⟩
    · exact hwf.typesInj i j p q hp hq hname
    · rw [hq] at hname ⊢
      exact absurd hname (hfreshType i p hp)
    · rw [hp] at hname ⊢
      exact absurd hname.symm (hfreshType j q hq)
    · rw [hp, hq]
  · intro j p hp
    rw [hti]
    rcases hmemChar j p hp with hp | ⟨hp, _⟩
    · rw [assocGet_append_ne _ _ _ _ (hfreshType j p hp)]
      exact hwf.typeComplete j p hp
    · rw [hp]
      exact assocGet_append_self _ _ _ hfreshTi
  · intro q hq
    rw [hti] at hq
    rcases List.mem_append.mp hq with hq | hq
    · rcases hwf.typeSound q hq with ⟨⟨i0, p0, hp0, hpq⟩, hname⟩
      exact ⟨⟨i0, p0, hmemBack i0 p0 hp0, hpq⟩, hname⟩
    · simp only [List.mem_singleton] at hq
      subst hq
      refine ⟨⟨bucketIdx n a.addr, (a.addr, a), ?_, rfl⟩, rfl⟩
      rw [hent, if_pos rfl]
      exact List.mem_append.mpr (Or.inr (List.mem_singleton.mpr rfl))
  · rw [hti, List.map_append, List.nodup_append]
    refine ⟨hwf.tiKeysNd, by simp, ?_⟩
    intro x hx hy
    simp only [List.map_cons, List.map_nil, List.mem_singleton] at hy
    subst hy
    rcases List.mem_map.mp hx with ⟨q, hq, hkey⟩
    exact hfreshTi q hq hkey

theorem dirWf_remove (n : Nat) (d : Directory) (address : Int)
    (hwf : DirWf n d) : DirWf n (d.remove address) := by
  have hi : bucketIdx n address < n := Nat.mod_lt _ hwf.npos
  have hbl : bucketIdx d.buckets.length address = bucketIdx n address := by
    rw [hwf.blen]
  cases hf : assocGet (d.entriesAt (bucketIdx n address)) address with
  | none =>
    have hnokey := assocGet_none_no_key _ _ hf
    have hrem : d.remove address =
        Directory.mk
          (d.buckets.set (bucketIdx n address)
            (d.entriesAt (bucketIdx n address)))
          d.typeIndex := by
      rw [Directory.remove, hbl, hf, assocDelete_of_no_key _ _ hnokey]
    have hent : ∀ j, (d.remove address).entriesAt j = d.entriesAt j := by
      intro j
      rw [hrem]
      show (d.buckets.set _ _).getD j [] = _
      by_cases hj : j = bucketIdx n address
      · rw [hj, getD_set_self _ _ _ _ (hwf.blen ▸ hi)]
      · rw [getD_set_ne _ _ _ _ _ hj]
        rfl
    have hti : (d.remove address).typeIndex = d.typeIndex := by rw [hrem]
    refine ⟨hwf.npos, ?_, ?_, ?_, ?_, ?_, ?_, ?_, ?_⟩
    · rw [hrem]
      show (d.buckets.set _ _).length = n
      rw [List.length_set, hwf.blen]
    · intro j p hp
      exact hwf.keyed j p (hent j ▸ hp)
    · intro j p hp
      exact hwf.placed j p (hent j ▸ hp)
    · intro j
      rw [hent]
      exact hwf.ndkeys j
    · intro i j p q hp hq
      exact hwf.typesInj i j p q (hent i ▸ hp) (hent j ▸ hq)
    · intro j p hp
      rw [hti]
      exact hwf.typeComplete j p (hent j ▸ hp)
    · intro q hq
      rw [hti] at hq
      rcases hwf.typeSound q hq with ⟨⟨i0, p0, hp0, hpq⟩, hname⟩
      exact ⟨⟨i0, p0, (hent i0).symm ▸ hp0, hpq⟩, hname⟩
    · rw [hti]
      exact hwf.tiKeysNd
  | some actor =>
    have hmem : (address, actor) ∈ d.entriesAt (bucketIdx n address) :=
      assocGet_mem _ _ _ hf
    have haddr : address = actor.addr :=
      hwf.keyed (bucketIdx n address) (address, actor) hmem
    have hrem : d.remove address =
        Directory.mk
          (d.buckets.set (bucketIdx n address)
            (assocDelete (d.entriesAt (bucketIdx n address)) address))
          (assocDelete d.typeIndex actor.typeName) := by
      rw [Directory.remove, hbl, hf]
    have hent : ∀ j, (d.remove address).entriesAt j =
        if j = bucketIdx n address then
          assocDelete (d.entriesAt (bucketIdx n address)) address
        else d.entriesAt j := by
      intro j
      rw [hrem]
      show (d.buckets.set _ _).getD j [] = _
      by_cases hj : j = bucketIdx n address
      · rw [if_pos hj, hj, getD_set_self _ _ _ _ (hwf.blen ▸ hi)]
      · rw [if_neg hj, getD_set_ne _ _ _ _ _ hj]
        rfl
    have hti : (d.remove address).typeIndex =
        assocDelete d.typeIndex actor.typeName := by rw [hrem]
    -- entries of the result are old entries
    have hsub : ∀ j p, p ∈ (d.remove address).entriesAt j → p ∈ d.entriesAt j := by
      intro j p hp
      rw [hent] at hp
      by_cases hj : j = bucketIdx n address
      · rw [if_pos hj] at hp
        exact hj ▸ ((mem_assocDelete _ _ _).mp hp).1
      · rw [if_neg hj] at hp
        exact hp
    -- the removed actor is gone from every bucket
    have hgone : ∀ j p, p ∈ (d.remove address).entriesAt j → p.2 ≠ actor := by
      intro j p hp heq
      have hpold := hsub j p hp
      have hkey : p.1 = address := by
        rw [hwf.keyed j p hpold, heq, ← haddr]
      have hj : j = bucketIdx n address := by
        rw [← hwf.placed j p hpold, hkey]
      rw [hent, if_pos hj] at hp
      exact ((mem_assocDelete _ _ _).mp hp).2 hkey
    -- entries other than the removed actor survive
    have hkeep : ∀ j p, p ∈ d.entriesAt j → p.2 ≠ actor →
        p ∈ (d.remove address).entriesAt j := by
      intro j p hp hne
      rw [hent]
      by_cases hj : j = bucketIdx n address
      · rw [if_pos hj]
        rw [hj] at hp
        refine (mem_assocDelete _ _ _).mpr ⟨hp, ?_⟩
        intro hkey
        have : p = (address, actor) :=
          assoc_nodup_key_eq _ (hwf.ndkeys _) p (address, actor) hp hmem
            (by rw [hkey])
        exact hne (by rw [this])
      · rw [if_neg hj]
        exact hp
    refine ⟨hwf.npos, ?_, ?_, ?_, ?_, ?_, ?_, ?_, ?_⟩
    · rw [hrem]
      show (d.buckets.set _ _).length = n
      rw [List.length_set, hwf.blen]
    · intro j p hp
      exact hwf.keyed j p (hsub j p hp)
    · intro j p hp
      exact hwf.placed j p (hsub j p hp)
    · intro j
      rw [hent]
      by_cases hj : j = bucketIdx n address
      · rw [if_pos hj]
        exact (hwf.ndkeys _).sublist ((assocDelete_sublist _ _).map _)
      · rw [if_neg hj]
        exact hwf.ndkeys j
    · intro i j p q hp hq
      exact hwf.typesInj i j p q (hsub i p hp) (hsub j q hq)
    · intro j p hp
      rw [hti]
      have hpold := hsub j p hp
      have hne : p.2.typeName ≠ actor.typeName := by
        intro he
        exact hgone j p hp
          (hwf.typesInj j (bucketIdx n address) p (address, actor) hpold hmem he)
      rw [assocGet_assocDelete_ne _ _ _ hne]
      exact hwf.typeComplete j p hpold
    · intro q hq
      rw [hti] at hq
      rcases (mem_assocDelete _ _ _).mp hq with ⟨hq1, hq2⟩
      rcases hwf.typeSound q hq1 with ⟨⟨i0, p0, hp0, hpq⟩, hname⟩
      have hne : q.2 ≠ actor := by
        intro he
        exact hq2 (by rw [← hname, he])
      exact ⟨⟨i0, p0, hkeep i0 p0 hp0 (by rw [hpq]; exact hne), hpq⟩, hname⟩
    · rw [hti]
      exact hwf.tiKeysNd.sublist ((assocDelete_sublist _ _).map _)

theorem dirWf_empty (n : Nat) (hn : 0 < n) : DirWf n (Directory.empty n) := by
  have hent : ∀ i, (Directory.empty n).entriesAt i = [] := by
    intro i
    exact getD_replicate_nil n i
  refine ⟨hn, by simp [Directory.empty], ?_, ?_, ?_, ?_, ?_, ?_, ?_⟩
  · intro i p hp; rw [hent] at hp; cases hp
  · intro i p hp; rw [hent] at hp; cases hp
  · intro i; rw [hent]; exact List.nodup_nil
  · intro i j p q hp; rw [hent] at hp; cases hp
  · intro i p hp; rw [hent] at hp; cases hp
  · intro q hq; cases hq
  · exact List.nodup_nil

theorem dirWf_runDirOps (n : Nat) (ops : List DirOp) (d : Directory)
    (hwf : DirWf n d) (hops : wfOps d ops = true) :
    DirWf n (runDirOps d ops) := by
  induction ops generalizing d with
  | nil => exact hwf
  | cons op ops ih =>
    cases op with
    | set a =>
      rw [wfOps, Bool.and_eq_true, Bool.and_eq_true] at hops
      obtain ⟨⟨ha, ht⟩, hrest⟩ := hops
      rw [Bool.not_eq_true'] at ha ht
      exact ih (d.set a.addr a) (dirWf_set n d a hwf ha ht) hrest
    | remove address =>
      rw [wfOps] at hops
      exact ih (d.remove address) (dirWf_remove n d address hwf) hops

/-- C9 (amended to type names kept pairwise distinct): across every
sequence of set/remove calls in which a set never reuses a live address
or a live type name (the spec's uniqueness convention for supervisors
and roots), the directory keeps each live actor in exactly one bucket —
the one selected by `abs(hash) mod bucketCount`, keyed by its address —
and the type index holds exactly the live actors under their type
names: the entry is installed by `set` and cleared by `remove`. -/
theorem directory_bucket_and_type_invariant (n : Nat) (ops : List DirOp)
    (hn : 0 < n) (hops : wfOps (Directory.empty n) ops = true) :
    (∀ i j p q, p ∈ (runDirOps (Directory.empty n) ops).entriesAt i →
      q ∈ (runDirOps (Directory.empty n) ops).entriesAt j →
      p.2 = q.2 → i = j ∧ p = q) ∧
    (∀ i p, p ∈ (runDirOps (Directory.empty n) ops).entriesAt i →
      p.1 = p.2.addr ∧ i = bucketIdx n p.1) ∧
    (∀ i p, p ∈ (runDirOps (Directory.empty n) ops).entriesAt i →
      (runDirOps (Directory.empty n) ops).findByType p.2.typeName = some p.2) ∧
    (∀ t a, (runDirOps (Directory.empty n) ops).findByType t = some a →
      a.typeName = t ∧
      ∃ i p, p ∈ (runDirOps (Directory.empty n) ops).entriesAt i ∧ p.2 = a) := by
  have hwf := dirWf_runDirOps n ops (Directory.empty n) (dirWf_empty n hn) hops
  refine ⟨?_, ?_, ?_, ?_⟩
  · intro i j p q hp hq he
    have hkeys : p.1 = q.1 := by
      rw [hwf.keyed i p hp, hwf.keyed j q hq, he]
    have hij : i = j := by
      rw [← hwf.placed i p hp, ← hwf.placed j q hq, hkeys]
    subst hij
    exact ⟨rfl, assoc_nodup_key_eq _ (hwf.ndkeys i) p q hp hq hkeys⟩
  · intro i p hp
    exact ⟨hwf.keyed i p hp, (hwf.placed i p hp).symm⟩
  · intro i p hp
    exact hwf.typeComplete i p hp
  · intro t a hfind
    rw [Directory.findByType] at hfind
    have hmem := assocGet_mem _ _ _ hfind
    rcases hwf.typeSound (t, a) hmem with ⟨⟨i0, p0, hp0, hpq⟩, hname⟩
    exact ⟨hname, i0, p0, hp0, hpq⟩

/-- Register two distinctly-typed actors and remove the first. -/
def c9Ops : List DirOp :=
  [.set (ActorRef.mk 1 "t"), .set (ActorRef.mk 2 "u"), .remove 1]

/-- Witness for `directory_bucket_and_type_invariant` on a 4-bucket
directory and the call sequence `c9Ops`. -/
theorem directory_bucket_and_type_invariant_witness :
    (∀ i j p q, p ∈ (runDirOps (Directory.empty 4) c9Ops).entriesAt i →
      q ∈ (runDirOps (Directory.empty 4) c9Ops).entriesAt j →
      p.2 = q.2 → i = j ∧ p = q) ∧
    (∀ i p, p ∈ (runDirOps (Directory.empty 4) c9Ops).entriesAt i →
      p.1 = p.2.addr ∧ i = bucketIdx 4 p.1) ∧
    (∀ i p, p ∈ (runDirOps (Directory.empty 4) c9Ops).entriesAt i →
      (runDirOps (Directory.empty 4) c9Ops).findByType p.2.typeName = some p.2) ∧
    (∀ t a, (runDirOps (Directory.empty 4) c9Ops).findByType t = some a →
      a.typeName = t ∧
      ∃ i p, p ∈ (runDirOps (Directory.empty 4) c9Ops).entriesAt i ∧ p.2 = a) :=
  directory_bucket_and_type_invariant 4 c9Ops (by decide) (by decide)

/-- The directory after `set` of two actors sharing the type name `t`
followed by `remove` of the first. -/
def dirCex : Directory :=
  (((Directory.empty 4).set 1 (ActorRef.mk 1 "t")).set 2
      (ActorRef.mk 2 "t")).remove 1

/-- C9 counterexample: register `A = (1, "t")` then `B = (2, "t")`
(last-writer-wins leaves `B` in the type index), then remove `A`:
`remove` deletes the `"t"` entry outright, so the surviving actor `B` is
live and its type name is now unique among live actors, yet it does not
appear in the type index — the claimed iff fails on the code. -/
theorem remove_after_duplicate_type_breaks_index :
    dirCex.liveEntries = [(2, ActorRef.mk 2 "t")] ∧
    dirCex.findByType "t" = none := by
  exact ⟨by decide, by decide⟩

end DomoActors
